import Mathlib

/-!
Verification development for the sudoers-editor core (repository
`sudo-GUI`): a shallow embedding of the line parser, the row
validators, the secure-path list codec, the merge serializer and the
commit pipeline, translated from the Python sources
(`parser.py`, `constants.py`, `main_window.py`,
`tabs/defaults_tab.py`, `tabs/alias_tab.py`, `widgets/secure_path.py`).

Text is modelled as `List Char`.  Python string primitives used by the
code (`strip`, `split`, `splitlines`, `int`, regular-expression
matching) are embedded as executable Lean functions.  ASCII and
latin-1 behaviour is modelled exactly; exotic Unicode whitespace
categories and Unicode digits are outside the model.
-/

set_option maxHeartbeats 1000000

/-- Whitespace characters recognised by Python `str.strip()` and by the
regex class `\s` (ASCII and latin-1 part). -/
def pyIsSpace (c : Char) : Bool :=
  c = ' ' || c = '\t' || c = '\n' || c = '\r' || c = '\x0b' || c = '\x0c' ||
  c = '\x1c' || c = '\x1d' || c = '\x1e' || c = '\x1f' || c = '\x85' || c = '\xa0'

/-- Line-terminator characters recognised by Python `str.splitlines`. -/
def pyIsLineBreak (c : Char) : Bool :=
  c = '\n' || c = '\r' || c = '\x0b' || c = '\x0c' ||
  c = '\x1c' || c = '\x1d' || c = '\x1e' || c = '\x85' ||
  c = '\u2028' || c = '\u2029'

/-- Drop the trailing characters satisfying `p`. -/
def dropTrailing (p : Char → Bool) (s : List Char) : List Char :=
  (s.reverse.dropWhile p).reverse

/-- Python `str.strip(chars)` generalised over a character predicate:
remove all leading and all trailing characters satisfying `p`. -/
def pyStripP (p : Char → Bool) (s : List Char) : List Char :=
  dropTrailing p (s.dropWhile p)

/-- Python `str.strip()` with no argument: strip whitespace on both ends. -/
def pyStrip (s : List Char) : List Char := pyStripP pyIsSpace s

/-- Python `str.strip(chr(34))`, used by `SecurePathDialog.__init__`. -/
def stripQuotes (s : List Char) : List Char := pyStripP (· = '"') s

/-- Python `str.splitlines`: split at line terminators, where a CRLF
pair counts as a single terminator and a trailing terminator does not
yield an extra empty line. -/
def pySplitlines : List Char → List (List Char)
  | [] => []
  | c :: rest =>
    if c = '\r' then
      match rest with
      | '\n' :: rest2 => [] :: pySplitlines rest2
      | [] => [[]]
      | d :: rest2 => [] :: pySplitlines (d :: rest2)
    else if pyIsLineBreak c then
      [] :: pySplitlines rest
    else
      match pySplitlines rest with
      | [] => [[c]]
      | l :: ls => (c :: l) :: ls

/-- Python `sep.join(items)`. -/
def joinSep (sep : List Char) : List (List Char) → List Char
  | [] => []
  | [l] => l
  | l :: ls => l ++ sep ++ joinSep sep ls

/-- Python `str.split(sep)` for a one-character separator: keeps empty
segments, and the empty string splits to one empty segment. -/
def pySplitChar (sep : Char) : List Char → List (List Char)
  | [] => [[]]
  | c :: rest =>
    if c = sep then [] :: pySplitChar sep rest
    else
      match pySplitChar sep rest with
      | [] => [[c]]
      | l :: ls => (c :: l) :: ls

/-- Helper for `pySplitWs`: walk the characters keeping the current
token reversed in `cur`. -/
def pySplitWsAux (cur : List Char) : List Char → List (List Char)
  | [] => if cur.isEmpty then [] else [cur.reverse]
  | c :: rest =>
    if pyIsSpace c then
      if cur.isEmpty then pySplitWsAux [] rest
      else cur.reverse :: pySplitWsAux [] rest
    else pySplitWsAux (c :: cur) rest

/-- Python `str.split()` with no argument: split on whitespace runs,
discarding empty tokens. -/
def pySplitWs (s : List Char) : List (List Char) :=
  pySplitWsAux [] s

/-- Validity of a digit run for Python `int()`: decimal digits with
single underscore separators between digits (PEP 515). -/
def pyDigitRun : List Char → Bool
  | [] => false
  | [c] => c.isDigit
  | c :: '_' :: rest => c.isDigit && pyDigitRun rest
  | c :: rest => c.isDigit && pyDigitRun rest

/-- Numeric value of a digit run, skipping underscores. -/
def digitsToNat (s : List Char) : Nat :=
  s.foldl (fun acc c => if c = '_' then acc else acc * 10 + (c.toNat - 48)) 0

/-- Python `int(s)` in base 10: surrounding whitespace and one optional
sign are accepted; the result is `none` where Python raises
`ValueError` (Unicode digits are outside the model). -/
def pyInt (s : List Char) : Option Int :=
  match pyStrip s with
  | '+' :: rest => if pyDigitRun rest then some (digitsToNat rest : Int) else none
  | '-' :: rest => if pyDigitRun rest then some (-(digitsToNat rest : Int)) else none
  | rest => if pyDigitRun rest then some (digitsToNat rest : Int) else none

/-- Semantic kinds of `DEFAULTS_META` entries (the `type` field in
`constants.py`). -/
inductive MKind
  | bool
  | enum
  | int
  | path
  | text
deriving DecidableEq

/-- One registry entry of `DEFAULTS_META` in `constants.py`. -/
structure MetaEntry where
  desc : String
  kind : MKind
  choices : List (List Char) := []
  min : Option Int := none
  max : Option Int := none
deriving DecidableEq

/-- The static `DEFAULTS_META` registry from `constants.py`; `none` for
unregistered keys (Python `dict.get`). -/
def DEFAULTS_META (key : List Char) : Option MetaEntry :=
  if key = "env_reset".data then
    some { desc := "Reset most environment variables to a safe default set before running the command.",
           kind := .bool }
  else if key = "mail_badpass".data then
    some { desc := "Send mail to the mailto user if an incorrect password is entered.",
           kind := .bool }
  else if key = "secure_path".data then
    some { desc := "Overrides the PATH of the user when a command is run via sudo. Separate directories with a colon.",
           kind := .path }
  else if key = "use_pty".data then
    some { desc := "Run the command in a new pseudo-terminal (recommended for logging/forensics).",
           kind := .bool }
  else if key = "lecture".data then
    some { desc := "Whether sudo should lecture the user about its dangers.",
           kind := .enum,
           choices := ["always".data, "once".data, "never".data] }
  else if key = "timestamp_timeout".data then
    some { desc := "Minutes before sudo asks for the password again. -1 means never time-out.",
           kind := .int,
           min := some (-1), max := some 999 }
  else none

/-- `DefaultsTab.validate_row` from `tabs/defaults_tab.py`, as a function
of the two cell texts: strip both cells, fetch the registry kind
(default `text`), require a non-empty key, and apply the kind-specific
check.  The Python `try/except ValueError` around `int(val)` is
modelled by `pyInt` returning `none`. -/
def DefaultsTab.validate_row (keyText valText : List Char) : Bool :=
  let key := pyStrip keyText
  let val := pyStrip valText
  match DEFAULTS_META key with
  | some m =>
    match m.kind with
    | .bool => !key.isEmpty && (val.isEmpty || val == "true".data || val == "false".data)
    | .enum => !key.isEmpty && m.choices.contains val
    | .int =>
      match pyInt val with
      | some v =>
        !key.isEmpty && decide (m.min.getD (-99999) ≤ v) && decide (v ≤ m.max.getD 99999)
      | none => false
    | .path => !key.isEmpty
    | .text => !key.isEmpty
  | none => !key.isEmpty

/-- `AliasTab.validate_row` from `tabs/alias_tab.py`: both stripped cells
non-empty, an underscore somewhere in the first cell, and no equals
sign in the first cell. -/
def AliasTab.validate_row (firstText secondText : List Char) : Bool :=
  let first := pyStrip firstText
  let second := pyStrip secondText
  !first.isEmpty && !second.isEmpty && first.contains '_' && !(first.contains '=')

/-- The regex class `\w` of `ALIAS_RE`.  Python compiles the pattern in
Unicode mode (no `re.ASCII`), so `\w` matches Unicode word characters,
not only `[A-Za-z0-9_]`.  The class is modelled exactly over ASCII and
latin-1: letters, digits and underscore, plus the latin-1 word
characters (ordinal indicators, the micro sign, superscript digits,
vulgar fractions, and the accented letters, excluding the
multiplication and division signs).  Word characters above U+00FF are
outside the model. -/
def pyIsWord (c : Char) : Bool :=
  c.isAlpha || c.isDigit || c = '_' ||
  c = '\u00aa' || c = '\u00b5' ||
  ('\u00b2' ≤ c && c ≤ '\u00b3') || ('\u00b9' ≤ c && c ≤ '\u00ba') ||
  ('\u00bc' ≤ c && c ≤ '\u00be') ||
  ('\u00c0' ≤ c && c ≤ '\u00d6') || ('\u00d8' ≤ c && c ≤ '\u00f6') ||
  ('\u00f8' ≤ c && c ≤ '\u00ff')

/-- Match of `DEFAULT_RE`, the compiled regex
`^Defaults\s+(.*)` from `constants.py`, against a stripped line;
returns capture group 1 (the body after the whitespace run). -/
def defaultMatch (s : List Char) : Option (List Char) :=
  if "Defaults".data.isPrefixOf s then
    match s.drop 8 with
    | c :: rest =>
      if pyIsSpace c then some ((c :: rest).dropWhile pyIsSpace) else none
    | [] => none
  else none

/-- Tail of an `ALIAS_RE` match after the `<Kind>_Alias` prefix: the
regex remainder `\s+(\w+)\s*=\s*(.*)`.  Returns the captured name and
definition.  The pattern is deterministic: `\s` and `\w` are disjoint
and the literal `=` belongs to neither class, so greedy matching
without backtracking is exact. -/
def aliasTail (s : List Char) : Option (List Char × List Char) :=
  match s with
  | c :: _ =>
    if pyIsSpace c then
      if ((s.dropWhile pyIsSpace).takeWhile pyIsWord).isEmpty then none
      else
        match ((s.dropWhile pyIsSpace).dropWhile pyIsWord).dropWhile pyIsSpace with
        | c2 :: r3 =>
          if c2 = '=' then
            some ((s.dropWhile pyIsSpace).takeWhile pyIsWord, r3.dropWhile pyIsSpace)
          else none
        | [] => none
    else none
  | [] => none

/-- Match of `ALIAS_RE`, the compiled regex
`^(User|Runas|Host|Cmnd)_Alias\s+(\w+)\s*=\s*(.*)` from
`constants.py`, against a stripped line; returns the three capture
groups.  The four alternatives start with distinct letters, so the
alternation is deterministic. -/
def aliasMatch (s : List Char) : Option (List Char × List Char × List Char) :=
  if "User_Alias".data.isPrefixOf s then
    (aliasTail (s.drop 10)).map (fun p => ("User".data, p.1, p.2))
  else if "Runas_Alias".data.isPrefixOf s then
    (aliasTail (s.drop 11)).map (fun p => ("Runas".data, p.1, p.2))
  else if "Host_Alias".data.isPrefixOf s then
    (aliasTail (s.drop 10)).map (fun p => ("Host".data, p.1, p.2))
  else if "Cmnd_Alias".data.isPrefixOf s then
    (aliasTail (s.drop 10)).map (fun p => ("Cmnd".data, p.1, p.2))
  else none

/-- Result of classifying one line in `parse_sudoers` (`parser.py`). -/
inductive LineClass
  | defaultsLine (body : List Char)
  | aliasLine (kind nm df : List Char)
  | passthrough
deriving DecidableEq

/-- Per-line classification of `parse_sudoers`: comments and blank lines
pass through, then `DEFAULT_RE` is tried, then `ALIAS_RE`, and
anything else passes through. -/
def classifyLine (line : List Char) : LineClass :=
  let stripped := pyStrip line
  if "#".data.isPrefixOf stripped || stripped.isEmpty then .passthrough
  else
    match defaultMatch stripped with
    | some body => .defaultsLine body
    | none =>
      match aliasMatch stripped with
      | some t => .aliasLine t.1 t.2.1 t.2.2
      | none => .passthrough

/-- The loop body of `parse_sudoers` over an explicit line list,
accumulating the three buckets in order. -/
def parseLines : List (List Char) →
    List (List Char) × List (List Char × List Char × List Char) × List (List Char)
  | [] => ([], [], [])
  | line :: rest =>
    let r := parseLines rest
    match classifyLine line with
    | .defaultsLine body => (body :: r.1, r.2.1, r.2.2)
    | .aliasLine k nm df => (r.1, (k, nm, df) :: r.2.1, r.2.2)
    | .passthrough => (r.1, r.2.1, line :: r.2.2)

/-- `parse_sudoers` from `parser.py`: split the text into lines and
classify each into defaults bodies, alias triples, or passthrough
rule lines. -/
def parse_sudoers (text : List Char) :
    List (List Char) × List (List Char × List Char × List Char) × List (List Char) :=
  parseLines (pySplitlines text)

/-- Row construction of `populate_tabs` for the Defaults tab
(`main_window.py`): each parsed body is split at the first equals sign
into a key/value cell pair, bodies without one get an empty value. -/
def populateDefaultsRows (bodies : List (List Char)) : List (List Char × List Char) :=
  bodies.map (fun d =>
    if d.contains '=' then
      (d.takeWhile (fun c => c != '='), (d.dropWhile (fun c => c != '=')).drop 1)
    else (d, []))

/-- Row construction of `populate_tabs` for the Alias tab
(`main_window.py`): the identity cell is the kind, the literal
`_Alias` and a space, then the name; the second cell is the
definition. -/
def populateAliasRows (triples : List (List Char × List Char × List Char)) :
    List (List Char × List Char) :=
  triples.map (fun t => (t.1 ++ "_Alias ".data ++ t.2.1, t.2.2))

/-- One Defaults output line built by `save_sudoers` (`main_window.py`):
`Defaults key=val` for a non-empty stripped value, else
`Defaults key`. -/
def newDefaultLine (keyText valText : List Char) : List Char :=
  let key := pyStrip keyText
  let val := pyStrip valText
  if val.isEmpty then "Defaults ".data ++ key
  else "Defaults ".data ++ key ++ ['='] ++ val

/-- One alias output line built by `save_sudoers` (`main_window.py`): the
last whitespace-separated token of the identity cell, a spaced equals
sign, then the stripped definition.  `none` models the `IndexError`
Python raises when the identity cell has no token at all. -/
def newAliasLine (idText defText : List Char) : Option (List Char) :=
  match (pySplitWs idText).getLast? with
  | some nm => some (nm ++ " = ".data ++ pyStrip defText)
  | none => none

/-- Python substring membership `pat in s`. -/
def containsSub (pat s : List Char) : Bool :=
  s.tails.any (fun t => pat.isPrefixOf t)

/-- The untouched-line filter of `save_sudoers` (`main_window.py`): keep
a line of the original text unless its stripped form starts with
`Defaults` or it contains `_Alias` anywhere. -/
def keepUntouched (ln : List Char) : Bool :=
  !("Defaults".data.isPrefixOf (pyStrip ln) || containsSub "_Alias".data ln)

/-- The merge step of `save_sudoers` (`main_window.py`): rebuild one line
per Defaults row, one line per alias row, append the untouched lines
of the original text, join with newlines and append a final newline. -/
def save_merge (originalText : List Char)
    (defaultRows aliasRows : List (List Char × List Char)) : Option (List Char) :=
  match aliasRows.mapM (fun r => newAliasLine r.1 r.2) with
  | some newAliases =>
    some (joinSep ['\n']
      (defaultRows.map (fun r => newDefaultLine r.1 r.2) ++ newAliases ++
        (pySplitlines originalText).filter keepUntouched) ++ ['\n'])
  | none => none

/-- Load-then-save composition: the tabs are populated from
`parse_sudoers` on the original text and `save_sudoers` merges the
unedited rows back. -/
def mergeAfterLoad (text : List Char) : Option (List Char) :=
  save_merge text
    (populateDefaultsRows (parse_sudoers text).1)
    (populateAliasRows (parse_sudoers text).2.1)

/-- Disk state relevant to the commit pipeline: the real configuration
file, the newest backup, and the fixed-path staging file. -/
structure FS where
  config : List Char
  backup : Option (List Char)
  tmp : Option (List Char)
deriving DecidableEq

/-- The commit pipeline of `save_sudoers` (`main_window.py`), with the
external authorities modelled by their exit status: stage the merged
text to the temp file; when the check authority (`visudo -c`) exits
non-zero, delete the temp file and stop without touching anything
else; otherwise attempt the backup copy (failure is a warning only),
let the write authority (`visudo -s`) install the staged content on
exit zero, and delete the temp file. -/
def save_commit (fs : FS) (merged : List Char)
    (checkExit : Int) (backupOk : Bool) (writeExit : Int) : FS :=
  let staged : FS := { fs with tmp := some merged }
  if checkExit ≠ 0 then { staged with tmp := none }
  else
    let backed := if backupOk then { staged with backup := some staged.config } else staged
    let written := if writeExit = 0 then { backed with config := merged } else backed
    { written with tmp := none }

/-- The list built by `SecurePathDialog.__init__`
(`widgets/secure_path.py`): on a non-empty initial string, strip all
surrounding double quotes, split at colons and keep the non-empty
segments; this is the decode direction of the path-list codec. -/
def SecurePathDialog.init_paths (initial : List Char) : List (List Char) :=
  if initial.isEmpty then []
  else (pySplitChar ':' (stripQuotes initial)).filter (fun p => !p.isEmpty)

/-- The `SecurePathDialog.result` property (`widgets/secure_path.py`):
join the items with colons and wrap in double quotes, or the empty
string for no items; this is the encode direction of the codec. -/
def SecurePathDialog.result (items : List (List Char)) : List Char :=
  if items.isEmpty then []
  else '"' :: (joinSep [':'] items ++ ['"'])

/-- `SecurePathDialog._add_path` (`widgets/secure_path.py`) applied to
the directory chosen in the file dialog: append it unless it is empty
(the dialog was cancelled) or already present under case-sensitive
exact comparison. -/
def SecurePathDialog.add_path (dirs : List (List Char)) (directory : List Char) :
    List (List Char) :=
  if !directory.isEmpty && dirs.all (fun d => d != directory) then dirs ++ [directory]
  else dirs

/-- Modelled from the spec: the shape `<Kind>_Alias <Name>` that the
specification requires of the alias identity cell (a kind from the
four alias kinds, the `_Alias` marker, whitespace, then a non-empty
name). -/
def specKindAliasForm (f : List Char) : Bool :=
  ["User".data, "Runas".data, "Host".data, "Cmnd".data].any (fun k =>
    (k ++ "_Alias".data).isPrefixOf f &&
    (match f.drop (k.length + 6) with
     | c :: rest => pyIsSpace c && !((rest.dropWhile pyIsSpace).isEmpty)
     | [] => false))

/-- Modelled from the spec: the alias-row validity condition exactly as
the specification words it (both stripped cells non-empty, identity
of the form `<Kind>_Alias <Name>`, no equals sign in the identity). -/
def specAliasValid (firstText secondText : List Char) : Bool :=
  let first := pyStrip firstText
  let second := pyStrip secondText
  !first.isEmpty && !second.isEmpty && specKindAliasForm first && !(first.contains '=')

/-- Modelled from the spec: strip exactly one layer of surrounding
double quotes when one is present. -/
def stripOneQuoteLayer (s : List Char) : List Char :=
  match s with
  | '"' :: rest => if rest.getLast? = some '"' then rest.dropLast else s
  | _ => s

/-- Modelled from the spec wording of the decode contract: one-layer
quote strip, split at colons, keep the non-empty segments. -/
def specDecodeOneLayer (initial : List Char) : List (List Char) :=
  (pySplitChar ':' (stripOneQuoteLayer initial)).filter (fun p => !p.isEmpty)

/-- Modelled from the claim wording: the literal ASCII word-character
class `[A-Za-z0-9_]`. -/
def asciiWord (c : Char) : Bool :=
  c.isAlpha || c.isDigit || c = '_'

/-! ### Library bridging and helper lemmas -/

theorem isPrefixOf_eq_true {l₁ l₂ : List Char} :
    l₁.isPrefixOf l₂ = true ↔ l₁ <+: l₂ := List.isPrefixOf_iff_prefix

theorem all_takeWhile (p : Char → Bool) (l : List Char) :
    (l.takeWhile p).all p = true := by
  induction l with
  | nil => rfl
  | cons c t ih =>
    rw [List.takeWhile_cons]
    by_cases h : p c = true
    · simp [h, ih]
    · simp [h]

theorem takeWhile_all_not (p : Char → Bool) (la lb : List Char) (c : Char)
    (h1 : ∀ x ∈ la, p x = true) (h2 : p c = false) :
    (la ++ c :: lb).takeWhile p = la := by
  induction la with
  | nil => simp [List.takeWhile_cons, h2]
  | cons a t ih =>
    have ha : p a = true := h1 a (by simp)
    simp only [List.cons_append, List.takeWhile_cons, ha, if_true]
    rw [ih (fun x hx => h1 x (by simp [hx]))]

theorem dropWhile_all_not (p : Char → Bool) (la lb : List Char) (c : Char)
    (h1 : ∀ x ∈ la, p x = true) (h2 : p c = false) :
    (la ++ c :: lb).dropWhile p = c :: lb := by
  induction la with
  | nil => simp [List.dropWhile_cons, h2]
  | cons a t ih =>
    have ha : p a = true := h1 a (by simp)
    simp only [List.cons_append, List.dropWhile_cons, ha, if_true]
    exact ih (fun x hx => h1 x (by simp [hx]))

theorem dropWhile_head_not {p : Char → Bool} {l t : List Char} {c : Char}
    (h : l.dropWhile p = c :: t) : p c = false := by
  induction l with
  | nil => simp at h
  | cons a l2 ih =>
    rw [List.dropWhile_cons] at h
    by_cases ha : p a = true
    · rw [if_pos ha] at h
      exact ih h
    · rw [if_neg ha] at h
      cases h
      exact Bool.eq_false_iff.mpr ha

theorem dropTrailing_ne_nil {p : Char → Bool} {y : List Char} {b : Char}
    (hmem : b ∈ y) (hb : p b = false) : dropTrailing p y ≠ [] := by
  intro h
  unfold dropTrailing at h
  have h1 : y.reverse.dropWhile p = [] := List.reverse_eq_nil_iff.mp h
  have h2 := List.dropWhile_eq_nil_iff.mp h1 b (List.mem_reverse.mpr hmem)
  rw [hb] at h2
  exact Bool.false_ne_true h2

theorem dropTrailing_append {p : Char → Bool} {x y : List Char}
    (h : dropTrailing p y ≠ []) : dropTrailing p (x ++ y) = x ++ dropTrailing p y := by
  unfold dropTrailing at *
  rw [List.reverse_append, List.dropWhile_append]
  have hne : (y.reverse.dropWhile p).isEmpty = false := by
    cases hcase : y.reverse.dropWhile p with
    | nil => exact absurd (by rw [hcase]; rfl) h
    | cons a t => rfl
  rw [hne]
  simp

theorem dropTrailing_append_sat {p : Char → Bool} {s : List Char} {c : Char}
    (h : p c = true) : dropTrailing p (s ++ [c]) = dropTrailing p s := by
  unfold dropTrailing
  rw [List.reverse_append]
  simp [List.dropWhile_cons, h]

theorem dropTrailing_no_sat {p : Char → Bool} {s : List Char} {b : Char}
    (hl : s.getLast? = some b) (hb : p b = false) : dropTrailing p s = s := by
  unfold dropTrailing
  have hrev : s.reverse.head? = some b := by
    rw [List.head?_reverse]
    exact hl
  cases hcase : s.reverse with
  | nil =>
    rw [hcase] at hrev
    simp at hrev
  | cons a t =>
    rw [hcase] at hrev
    have hab : a = b := by simpa using hrev
    subst hab
    rw [List.dropWhile_cons, if_neg (by simp [hb])]
    rw [← hcase, List.reverse_reverse]

theorem pyStripP_wrap_sat {p : Char → Bool} {s : List Char} {c : Char}
    (h : p c = true) : pyStripP p (c :: (s ++ [c])) = pyStripP p s := by
  unfold pyStripP
  rw [List.dropWhile_cons, if_pos h, List.dropWhile_append]
  by_cases hcase : s.dropWhile p = []
  · have hemp : (s.dropWhile p).isEmpty = true := by rw [hcase]; rfl
    rw [hemp, if_pos rfl, hcase]
    simp [List.dropWhile_cons, h]
  · have hemp : (s.dropWhile p).isEmpty = false := by
      cases hc2 : s.dropWhile p with
      | nil => exact absurd hc2 hcase
      | cons a t => rfl
    rw [hemp, if_neg Bool.false_ne_true]
    exact dropTrailing_append_sat h

theorem pyStripP_wrap_clean {p : Char → Bool} {s : List Char} {c a b : Char}
    (hc : p c = true) (hh : s.head? = some a) (ha : p a = false)
    (hl : s.getLast? = some b) (hb : p b = false) :
    pyStripP p (c :: (s ++ [c])) = s := by
  rw [pyStripP_wrap_sat hc]
  unfold pyStripP
  cases s with
  | nil => simp at hh
  | cons x t =>
    have hx : x = a := by simpa using hh
    subst hx
    rw [List.dropWhile_cons, if_neg (by simp [ha])]
    exact dropTrailing_no_sat hl hb

theorem dropWhile_sfx (p : Char → Bool) (l : List Char) : l.dropWhile p <:+ l := by
  induction l with
  | nil => exact List.suffix_refl []
  | cons a t ih =>
    rw [List.dropWhile_cons]
    by_cases h : p a = true
    · rw [if_pos h]
      exact ih.trans (List.suffix_cons a t)
    · rw [if_neg h]

theorem dropTrailing_pfx (p : Char → Bool) (x : List Char) : dropTrailing p x <+: x := by
  unfold dropTrailing
  have h3 : x.reverse.dropWhile p <:+ x.reverse := dropWhile_sfx p x.reverse
  have h4 := List.reverse_prefix.mpr h3
  rwa [List.reverse_reverse] at h4

theorem pyStripP_sub (p : Char → Bool) (s : List Char) : pyStripP p s <:+: s := by
  unfold pyStripP
  exact List.infix_iff_prefix_suffix.mpr
    ⟨s.dropWhile p, dropTrailing_pfx p (s.dropWhile p), dropWhile_sfx p s⟩

theorem containsSub_true_of {pat s : List Char} (h : pat <:+: s) :
    containsSub pat s = true := by
  obtain ⟨t, hpt, hts⟩ := List.infix_iff_prefix_suffix.mp h
  unfold containsSub
  rw [List.any_eq_true]
  exact ⟨t, (List.mem_tails _ _).mpr hts, isPrefixOf_eq_true.mpr hpt⟩

theorem pySplitChar_ne_nil (sep : Char) (s : List Char) : pySplitChar sep s ≠ [] := by
  cases s with
  | nil => simp [pySplitChar]
  | cons c rest =>
    simp only [pySplitChar]
    by_cases h : c = sep
    · simp [h]
    · simp only [if_neg h]
      cases pySplitChar sep rest with
      | nil => simp
      | cons l ls => simp

theorem pySplitChar_no_sep {sep : Char} {s : List Char} (h : sep ∉ s) :
    pySplitChar sep s = [s] := by
  induction s with
  | nil => rfl
  | cons c rest ih =>
    have hc : ¬(c = sep) := fun hh => h (hh ▸ List.mem_cons_self c rest)
    have hrest : sep ∉ rest := fun hh => h (List.mem_cons_of_mem c hh)
    simp only [pySplitChar, if_neg hc]
    rw [ih hrest]

theorem pySplitChar_append_sep {sep : Char} {l t : List Char} (h : sep ∉ l) :
    pySplitChar sep (l ++ sep :: t) = l :: pySplitChar sep t := by
  induction l with
  | nil => simp [pySplitChar]
  | cons c rest ih =>
    have hc : ¬(c = sep) := fun hh => h (hh ▸ List.mem_cons_self c rest)
    have hrest : sep ∉ rest := fun hh => h (List.mem_cons_of_mem c hh)
    simp only [List.cons_append, pySplitChar, List.append_eq, if_neg hc]
    rw [ih hrest]

theorem pySplitChar_joinSep {sep : Char} {L : List (List Char)} (hne : L ≠ [])
    (h : ∀ x ∈ L, sep ∉ x) : pySplitChar sep (joinSep [sep] L) = L := by
  induction L with
  | nil => exact absurd rfl hne
  | cons l ls ih =>
    cases ls with
    | nil =>
      simp only [joinSep]
      exact pySplitChar_no_sep (h l (by simp))
    | cons l2 ls2 =>
      have hj : joinSep [sep] (l :: l2 :: ls2) = l ++ sep :: joinSep [sep] (l2 :: ls2) := by
        simp [joinSep]
      rw [hj, pySplitChar_append_sep (h l (by simp))]
      rw [ih (by simp) (fun x hx => h x (by simp [hx]))]

theorem pySplitlines_crlf (rest2 : List Char) :
    pySplitlines ('\r' :: '\n' :: rest2) = [] :: pySplitlines rest2 := rfl

theorem pySplitlines_cr_only : pySplitlines ['\r'] = [[]] := rfl

theorem pySplitlines_cr (d : Char) (rest2 : List Char) (h : ¬(d = '\n')) :
    pySplitlines ('\r' :: d :: rest2) = [] :: pySplitlines (d :: rest2) := by
  conv_lhs => rw [pySplitlines.eq_def]
  dsimp only
  rw [if_pos rfl]
  split
  · rename_i rest3 heq
    injection heq with hd hrest
    exact absurd hd h
  · rename_i heq
    exact absurd heq (List.cons_ne_nil d rest2)
  · rename_i d2 rest3 hne heq
    injection heq with hd hrest
    subst hd
    subst hrest
    rfl

theorem pySplitlines_nl (c : Char) (rest : List Char) (h1 : ¬(c = '\r'))
    (h2 : pyIsLineBreak c = true) :
    pySplitlines (c :: rest) = [] :: pySplitlines rest := by
  conv_lhs => rw [pySplitlines.eq_def]
  dsimp only
  rw [if_neg h1, if_pos h2]

theorem pySplitlines_char (c : Char) (rest : List Char) (h1 : ¬(c = '\r'))
    (h2 : ¬(pyIsLineBreak c = true)) :
    pySplitlines (c :: rest) =
      (match pySplitlines rest with
       | [] => [[c]]
       | l :: ls => (c :: l) :: ls) := by
  conv_lhs => rw [pySplitlines.eq_def]
  dsimp only
  rw [if_neg h1, if_neg h2]

theorem pySplitlines_ne_nil {t : List Char} (h : t ≠ []) : pySplitlines t ≠ [] := by
  cases t with
  | nil => exact absurd rfl h
  | cons c rest =>
    by_cases hc : c = '\r'
    · subst hc
      cases rest with
      | nil => rw [pySplitlines_cr_only]; simp
      | cons d rest2 =>
        by_cases hd : d = '\n'
        · subst hd
          rw [pySplitlines_crlf]
          simp
        · rw [pySplitlines_cr d rest2 hd]
          simp
    · by_cases hb : pyIsLineBreak c = true
      · rw [pySplitlines_nl c rest hc hb]
        simp
      · rw [pySplitlines_char c rest hc hb]
        cases pySplitlines rest with
        | nil => simp
        | cons l ls => simp

theorem joinSep_cons_head (sep : List Char) (c : Char) (l : List Char)
    (ls : List (List Char)) :
    joinSep sep ((c :: l) :: ls) = c :: joinSep sep (l :: ls) := by
  cases ls with
  | nil => rfl
  | cons x xs => rfl

theorem joinSep_pySplitlines {t : List Char}
    (h : ∀ c ∈ t, pyIsLineBreak c = true → c = '\n') :
    joinSep ['\n'] (pySplitlines t) =
      if t.getLast? = some '\n' then t.dropLast else t := by
  induction t using pySplitlines.induct with
  | case1 => simp [pySplitlines, joinSep]
  | case2 rest2 ih =>
    exact absurd (h '\r' (by simp) (by decide)) (by decide)
  | case3 =>
    exact absurd (h '\r' (by simp) (by decide)) (by decide)
  | case4 d rest2 hd ih =>
    exact absurd (h '\r' (by simp) (by decide)) (by decide)
  | case5 c rest h1 h2 ih =>
    have hcn : c = '\n' := h c (by simp) h2
    subst hcn
    rw [pySplitlines_nl _ _ h1 h2]
    cases rest with
    | nil => simp [pySplitlines, joinSep]
    | cons r rs =>
      have hne := pySplitlines_ne_nil (t := r :: rs) (by simp)
      cases hsp : pySplitlines (r :: rs) with
      | nil => exact absurd hsp hne
      | cons l ls =>
        have hstep : joinSep ['\n'] ([] :: l :: ls) = '\n' :: joinSep ['\n'] (l :: ls) := rfl
        rw [hstep, ← hsp]
        rw [ih (fun x hx hbx => h x (by simp [hx]) hbx)]
        rw [List.getLast?_cons_cons, List.dropLast_cons₂]
        by_cases hlast : (r :: rs).getLast? = some '\n'
        · rw [if_pos hlast, if_pos hlast]
        · rw [if_neg hlast, if_neg hlast]
  | case6 c rest h1 h2 hsp ih =>
    have hrest : rest = [] := by
      by_contra hne
      exact pySplitlines_ne_nil hne hsp
    subst hrest
    have hred : (match pySplitlines ([] : List Char) with
                 | [] => [[c]]
                 | l :: ls => (c :: l) :: ls) = [[c]] := rfl
    rw [pySplitlines_char c [] h1 h2, hred]
    have hcn : ¬(c = '\n') := fun hh => h2 (hh ▸ (by decide : pyIsLineBreak '\n' = true))
    simp [joinSep, hcn]
  | case7 c rest h1 h2 l ls hsp ih =>
    have hrest : rest ≠ [] := by
      intro hh
      rw [hh] at hsp
      exact List.cons_ne_nil l ls hsp.symm
    rw [pySplitlines_char c rest h1 h2, hsp]
    have hred : (match l :: ls with
                 | [] => [[c]]
                 | l :: ls => (c :: l) :: ls) = (c :: l) :: ls := rfl
    rw [hred, joinSep_cons_head, ← hsp]
    rw [ih (fun x hx hbx => h x (by simp [hx]) hbx)]
    cases rest with
    | nil => exact absurd rfl hrest
    | cons r rs =>
      rw [List.getLast?_cons_cons, List.dropLast_cons₂]
      by_cases hlast : (r :: rs).getLast? = some '\n'
      · rw [if_pos hlast, if_pos hlast]
      · rw [if_neg hlast, if_neg hlast]

theorem parseLines_length (lines : List (List Char)) :
    (parseLines lines).1.length + (parseLines lines).2.1.length +
      (parseLines lines).2.2.length = lines.length := by
  induction lines with
  | nil => rfl
  | cons l rest ih =>
    simp only [parseLines]
    cases classifyLine l <;> simp only [List.length_cons] <;> omega

theorem parseLines_all_pass {lines : List (List Char)}
    (h : ∀ l ∈ lines, classifyLine l = LineClass.passthrough) :
    parseLines lines = ([], [], lines) := by
  induction lines with
  | nil => rfl
  | cons l rest ih =>
    have hl := h l (by simp)
    simp only [parseLines, hl, ih (fun x hx => h x (by simp [hx]))]

theorem kindPrefixAbsent {ln : List Char} (kindStr : List Char)
    (hsub : "_Alias".data <:+: kindStr)
    (h2 : containsSub "_Alias".data ln = false) :
    kindStr.isPrefixOf (pyStrip ln) = false := by
  by_contra hA
  rw [Bool.not_eq_false] at hA
  have hpfx := isPrefixOf_eq_true.mp hA
  have hinf : "_Alias".data <:+: ln :=
    (hsub.trans hpfx.isInfix).trans (pyStripP_sub pyIsSpace ln)
  have hcon := containsSub_true_of hinf
  rw [h2] at hcon
  exact Bool.false_ne_true hcon

theorem classifyLine_pass_of {ln : List Char}
    (h1 : "Defaults".data.isPrefixOf (pyStrip ln) = false)
    (h2 : containsSub "_Alias".data ln = false) :
    classifyLine ln = LineClass.passthrough := by
  unfold classifyLine
  by_cases hc : ("#".data.isPrefixOf (pyStrip ln) || (pyStrip ln).isEmpty) = true
  · rw [if_pos hc]
  · rw [if_neg hc]
    have hdm : defaultMatch (pyStrip ln) = none := by
      unfold defaultMatch
      simp [h1]
    have hU := kindPrefixAbsent "User_Alias".data ⟨"User".data, [], by decide⟩ h2
    have hR := kindPrefixAbsent "Runas_Alias".data ⟨"Runas".data, [], by decide⟩ h2
    have hH := kindPrefixAbsent "Host_Alias".data ⟨"Host".data, [], by decide⟩ h2
    have hC := kindPrefixAbsent "Cmnd_Alias".data ⟨"Cmnd".data, [], by decide⟩ h2
    have ham : aliasMatch (pyStrip ln) = none := by
      unfold aliasMatch
      simp [hU, hR, hH, hC]
    simp only [hdm, ham]

/-! ### Claim theorems -/

/-- C1: for every commit attempt in which the external syntax-check
authority rejects the staged file (non-zero exit status), the real
configuration file content after the attempt equals its content
before the attempt, no backup file is created, and the temporary
staged file is deleted. -/
theorem commit_gate_check_failure (fs : FS) (merged : List Char)
    (checkExit : Int) (backupOk : Bool) (writeExit : Int)
    (h : checkExit ≠ 0) :
    (save_commit fs merged checkExit backupOk writeExit).config = fs.config ∧
    (save_commit fs merged checkExit backupOk writeExit).backup = fs.backup ∧
    (save_commit fs merged checkExit backupOk writeExit).tmp = none := by
  unfold save_commit
  rw [if_pos h]
  exact ⟨rfl, rfl, rfl⟩

/-- Witness for C1 at a concrete state: check exit status 1 leaves the
configuration and backup untouched and deletes the staged file. -/
theorem commit_gate_check_failure_witness :
    (save_commit ⟨"x".data, none, none⟩ "y".data 1 true 0).config = "x".data ∧
    (save_commit ⟨"x".data, none, none⟩ "y".data 1 true 0).backup = none ∧
    (save_commit ⟨"x".data, none, none⟩ "y".data 1 true 0).tmp = none :=
  commit_gate_check_failure ⟨"x".data, none, none⟩ "y".data 1 true 0 (by decide)

/-- C3: for every input text, the parser assigns each line to exactly
one of the three buckets; the total number of entries across the
three result lists equals the number of input lines. -/
theorem classification_complete (text : List Char) :
    (parse_sudoers text).1.length + (parse_sudoers text).2.1.length +
      (parse_sudoers text).2.2.length = (pySplitlines text).length := by
  unfold parse_sudoers
  exact parseLines_length (pySplitlines text)

/-- C4 counterexample: the serializer does not emit the full identity
cell; on the row (`User_Alias ADMINS`, `alice,bob`) it emits
`ADMINS = alice,bob`, dropping the kind prefix. -/
theorem alias_serialize_cex :
    newAliasLine "User_Alias ADMINS".data "alice,bob".data =
      some "ADMINS = alice,bob".data ∧
    newAliasLine "User_Alias ADMINS".data "alice,bob".data ≠
      some "User_Alias ADMINS = alice,bob".data := by
  constructor
  · decide
  · decide

/-- C4 amended: for every alias row whose identity cell has at least one
whitespace-separated token, the serializer emits
`<lastToken> = <definition>` where `<lastToken>` is the last token of
the identity cell (the bare alias name, with the kind prefix
dropped). -/
theorem alias_serialize_amended (idText defText nm : List Char)
    (h : (pySplitWs idText).getLast? = some nm) :
    newAliasLine idText defText = some (nm ++ " = ".data ++ pyStrip defText) := by
  unfold newAliasLine
  rw [h]

/-- Witness for the amended C4 on the row from the spec example. -/
theorem alias_serialize_amended_witness :
    newAliasLine "User_Alias ADMINS".data "alice,bob".data =
      some ("ADMINS".data ++ " = ".data ++ pyStrip "alice,bob".data) :=
  alias_serialize_amended "User_Alias ADMINS".data "alice,bob".data "ADMINS".data
    (by decide)

/-- C8 counterexample: the insert operation refuses the empty string
even though it is not present, so the claim quantified over every
directory string fails at the empty string. -/
theorem insert_empty_cex :
    ([] : List Char) ∉ ([] : List (List Char)) ∧
    SecurePathDialog.add_path [] [] = [] ∧
    SecurePathDialog.add_path [] [] ≠ [[]] := by
  refine ⟨by simp, by decide, by decide⟩

/-- C8 amended: for every non-empty directory string, insertion leaves
the list unchanged when the directory is already present
(case-sensitive exact match) and appends it at the end otherwise;
inserting the same directory twice into a list without it yields a
list containing it exactly once, and a duplicate-free list stays
duplicate-free. -/
theorem insert_duplicate_amended (dirs : List (List Char)) (d : List Char)
    (hne : d ≠ []) :
    (d ∈ dirs → SecurePathDialog.add_path dirs d = dirs) ∧
    (d ∉ dirs → SecurePathDialog.add_path dirs d = dirs ++ [d]) ∧
    (d ∉ dirs →
      (SecurePathDialog.add_path (SecurePathDialog.add_path dirs d) d).count d = 1) ∧
    (dirs.Nodup → (SecurePathDialog.add_path dirs d).Nodup) := by
  have hall_iff : ∀ l : List (List Char), (l.all fun x => x != d) = true ↔ d ∉ l := by
    intro l
    rw [List.all_eq_true]
    constructor
    · intro hf hd
      have hfd := hf d hd
      simp at hfd
    · intro hd x hx
      simp only [bne_iff_ne, ne_eq]
      intro hxd
      exact hd (hxd ▸ hx)
  have hmem : d ∈ dirs → SecurePathDialog.add_path dirs d = dirs := by
    intro hd
    unfold SecurePathDialog.add_path
    rw [if_neg]
    intro hcond
    have := (Bool.and_eq_true _ _).mp hcond
    exact absurd ((hall_iff dirs).mp this.2) (by simp [hd])
  have hnot : d ∉ dirs → SecurePathDialog.add_path dirs d = dirs ++ [d] := by
    intro hd
    unfold SecurePathDialog.add_path
    rw [if_pos]
    rw [Bool.and_eq_true]
    refine ⟨?_, (hall_iff dirs).mpr hd⟩
    simp [hne]
  refine ⟨hmem, hnot, ?_, ?_⟩
  · intro hd
    rw [hnot hd]
    have hmem2 : d ∈ dirs ++ [d] := by simp
    have h2 : SecurePathDialog.add_path (dirs ++ [d]) d = dirs ++ [d] := by
      unfold SecurePathDialog.add_path
      rw [if_neg]
      intro hcond
      have := (Bool.and_eq_true _ _).mp hcond
      exact absurd ((hall_iff (dirs ++ [d])).mp this.2) (by simp [hmem2])
    rw [h2, List.count_append]
    rw [List.count_eq_zero.mpr hd]
    simp
  · intro hnd
    by_cases hd : d ∈ dirs
    · rw [hmem hd]
      exact hnd
    · rw [hnot hd]
      rw [List.nodup_append]
      exact ⟨hnd, List.nodup_singleton d, by simpa [List.disjoint_singleton] using hd⟩

/-- Witness for the amended C8: inserting `/usr/bin` twice into the
empty path list yields a list containing it exactly once. -/
theorem insert_duplicate_amended_witness :
    (SecurePathDialog.add_path (SecurePathDialog.add_path [] "/usr/bin".data)
      "/usr/bin".data).count "/usr/bin".data = 1 :=
  (insert_duplicate_amended [] "/usr/bin".data (by decide)).2.2.1 (by simp)

/-- C9 counterexample: the identity cell `a_b` is not of the form
`<Kind>_Alias <Name>` required by the claim, yet the row validator
accepts the row (`a_b`, `x`), so the claimed equivalence fails. -/
theorem alias_validator_form_cex :
    AliasTab.validate_row "a_b".data "x".data = true ∧
    specAliasValid "a_b".data "x".data = false := by
  constructor
  · decide
  · decide

/-- C9 amended: the alias row validator accepts a row exactly when both
stripped cells are non-empty, the identity cell contains an
underscore character somewhere, and the identity cell contains no
equals sign. -/
theorem alias_validator_amended (firstText secondText : List Char) :
    AliasTab.validate_row firstText secondText = true ↔
      (pyStrip firstText ≠ [] ∧ pyStrip secondText ≠ [] ∧
       '_' ∈ pyStrip firstText ∧ '=' ∉ pyStrip firstText) := by
  unfold AliasTab.validate_row
  simp [Bool.and_eq_true, List.isEmpty_iff, and_assoc]

/-- C5: for every Defaults row whose stripped key has registered kind
`int`, row validation (total by construction) accepts exactly when
the stripped value parses as a base-10 integer within the registered
bounds. -/
theorem int_validation_iff (keyText valText : List Char) (m : MetaEntry)
    (h1 : DEFAULTS_META (pyStrip keyText) = some m) (h2 : m.kind = MKind.int) :
    DefaultsTab.validate_row keyText valText = true ↔
      (pyStrip keyText ≠ [] ∧ ∃ v : Int, pyInt (pyStrip valText) = some v ∧
        m.min.getD (-99999) ≤ v ∧ v ≤ m.max.getD 99999) := by
  unfold DefaultsTab.validate_row
  simp only [h1, h2]
  cases hv : pyInt (pyStrip valText) with
  | none => simp [hv]
  | some v =>
    simp [hv, Bool.and_eq_true, decide_eq_true_iff, List.isEmpty_iff, and_assoc]

/-- Witness for C5 on `timestamp_timeout` (min -1, max 999): value `5`
validates via the theorem, `abc` and `-5` are rejected. -/
theorem int_validation_iff_witness :
    DefaultsTab.validate_row "timestamp_timeout".data "5".data = true ∧
    DefaultsTab.validate_row "timestamp_timeout".data "abc".data = false ∧
    DefaultsTab.validate_row "timestamp_timeout".data "-5".data = false := by
  refine ⟨?_, by decide, by decide⟩
  exact (int_validation_iff "timestamp_timeout".data "5".data
    (MetaEntry.mk "Minutes before sudo asks for the password again. -1 means never time-out."
      MKind.int [] (some (-1)) (some 999)) (by decide) rfl).mpr
    ⟨by decide, 5, by decide, by decide, by decide⟩

theorem joinSep_head_eq (sep : List Char) (a : List Char) (L2 : List (List Char))
    (h : a ≠ []) : (joinSep sep (a :: L2)).head? = a.head? := by
  cases L2 with
  | nil => rfl
  | cons b L3 =>
    cases a with
    | nil => exact absurd rfl h
    | cons c arest => rfl

theorem joinSep_getLast_eq (sep : List Char) :
    ∀ (L : List (List Char)) (b : List Char), L.getLast? = some b → b ≠ [] →
      (joinSep sep L).getLast? = b.getLast? := by
  intro L
  induction L with
  | nil =>
    intro b hL hb
    simp at hL
  | cons a L2 ih =>
    intro b hL hb
    cases L2 with
    | nil =>
      have hab : a = b := by simpa using hL
      subst hab
      rfl
    | cons a2 L3 =>
      rw [List.getLast?_cons_cons] at hL
      have hJ := ih b hL hb
      have hbl : b.getLast?.isSome = true := by
        rw [Option.isSome_iff_exists]
        cases hcb : b.getLast? with
        | none =>
          rw [List.getLast?_eq_none_iff] at hcb
          exact absurd hcb hb
        | some c => exact ⟨c, rfl⟩
      have hJne : joinSep sep (a2 :: L3) ≠ [] := by
        intro hcon
        rw [hcon] at hJ
        simp only [List.getLast?_nil] at hJ
        rw [← hJ] at hbl
        simp at hbl
      have hjoin : joinSep sep (a :: a2 :: L3) = a ++ sep ++ joinSep sep (a2 :: L3) := rfl
      rw [hjoin, List.getLast?_append_of_ne_nil _ hJne]
      exact hJ

/-- C6 counterexample: the list containing the single string `chr(34)`
(one double-quote character) has no empty strings and no colons, yet
decode of its encoding loses both quote characters and returns the
empty list, so the round-trip law fails. -/
theorem pathlist_roundtrip_cex :
    (∀ x ∈ [['"']], x ≠ ([] : List Char) ∧ ':' ∉ x) ∧
    SecurePathDialog.init_paths (SecurePathDialog.result [['"']]) = [] ∧
    SecurePathDialog.init_paths (SecurePathDialog.result [['"']]) ≠ [['"']] := by
  refine ⟨by decide, by decide, by decide⟩

/-- C6 amended: the round-trip law `decode (encode L) = L` holds for
every list of non-empty, colon-free strings whose first element does
not start with a double quote and whose last element does not end
with one; encode of the empty list is the empty string, and decode of
the empty string is the empty list. -/
theorem pathlist_roundtrip_amended (L : List (List Char))
    (h1 : ∀ x ∈ L, x ≠ [] ∧ ':' ∉ x)
    (h2 : ∀ x ∈ L.head?, ∀ c ∈ x.head?, ¬(c = '"'))
    (h3 : ∀ x ∈ L.getLast?, ∀ c ∈ x.getLast?, ¬(c = '"')) :
    SecurePathDialog.init_paths (SecurePathDialog.result L) = L ∧
    SecurePathDialog.result [] = [] ∧
    SecurePathDialog.init_paths [] = [] := by
  refine ⟨?_, rfl, rfl⟩
  cases L with
  | nil => rfl
  | cons a L2 =>
    unfold SecurePathDialog.result
    rw [if_neg (by simp)]
    unfold SecurePathDialog.init_paths
    rw [if_neg (by simp)]
    have hane := (h1 a (by simp)).1
    obtain ⟨c0, hc0⟩ : ∃ c0, a.head? = some c0 := by
      cases a with
      | nil => exact absurd rfl hane
      | cons x xs => exact ⟨x, rfl⟩
    have hH : (joinSep [':'] (a :: L2)).head? = some c0 := by
      rw [joinSep_head_eq [':'] a L2 hane]
      exact hc0
    obtain ⟨bl, hbl⟩ : ∃ bl, (a :: L2).getLast? = some bl := by
      cases hgl : (a :: L2).getLast? with
      | none =>
        rw [List.getLast?_eq_none_iff] at hgl
        exact absurd hgl (by simp)
      | some x => exact ⟨x, rfl⟩
    have hblne := (h1 bl (List.mem_of_mem_getLast? hbl)).1
    obtain ⟨c1, hc1⟩ : ∃ c1, bl.getLast? = some c1 := by
      cases hcb : bl.getLast? with
      | none =>
        rw [List.getLast?_eq_none_iff] at hcb
        exact absurd hcb hblne
      | some x => exact ⟨x, rfl⟩
    have hL : (joinSep [':'] (a :: L2)).getLast? = some c1 := by
      rw [joinSep_getLast_eq [':'] (a :: L2) bl hbl hblne]
      exact hc1
    have hc0q := h2 a (Option.mem_def.mpr rfl) c0 (Option.mem_def.mpr hc0)
    have hc1q := h3 bl (Option.mem_def.mpr hbl) c1 (Option.mem_def.mpr hc1)
    have hstrip : stripQuotes ('"' :: (joinSep [':'] (a :: L2) ++ ['"'])) =
        joinSep [':'] (a :: L2) := by
      unfold stripQuotes
      exact pyStripP_wrap_clean (by decide) hH (decide_eq_false hc0q) hL
        (decide_eq_false hc1q)
    rw [hstrip]
    rw [pySplitChar_joinSep (by simp) (fun x hx => (h1 x hx).2)]
    exact List.filter_eq_self.mpr (fun x hx => by
      simp [List.isEmpty_iff, (h1 x hx).1])

/-- Witness for the amended C6 on the path list from the spec example. -/
theorem pathlist_roundtrip_amended_witness :
    SecurePathDialog.init_paths
        (SecurePathDialog.result ["/usr/bin".data, "/bin".data]) =
      ["/usr/bin".data, "/bin".data] :=
  (pathlist_roundtrip_amended ["/usr/bin".data, "/bin".data]
    (by decide) (by decide) (by decide)).1

/-- C7 counterexample: the decode operation strips all surrounding
double quotes, not exactly one layer; on the doubly quoted input the
inner quotes are lost, where the claim predicts they are kept. -/
theorem decode_one_layer_cex :
    SecurePathDialog.init_paths "\"\"a\"\"".data = ["a".data] ∧
    specDecodeOneLayer "\"\"a\"\"".data = ["\"a\"".data] ∧
    SecurePathDialog.init_paths "\"\"a\"\"".data ≠
      specDecodeOneLayer "\"\"a\"\"".data := by
  refine ⟨by decide, by decide, by decide⟩

/-- C7 amended: decode strips all leading and trailing double-quote
characters before splitting at colons and keeping non-empty segments
in order: wrapping any raw input in one more quote layer never
changes the decode result, and on a string with quote-free ends one
wrapping layer is removed exactly. -/
theorem decode_strip_all_amended :
    (∀ raw : List Char,
      SecurePathDialog.init_paths ('"' :: (raw ++ ['"'])) =
        SecurePathDialog.init_paths raw) ∧
    (∀ (s : List Char) (a b : Char), s.head? = some a → ¬(a = '"') →
      s.getLast? = some b → ¬(b = '"') →
      SecurePathDialog.init_paths ('"' :: (s ++ ['"'])) =
        (pySplitChar ':' s).filter (fun p => !p.isEmpty)) := by
  constructor
  · intro raw
    unfold SecurePathDialog.init_paths
    rw [if_neg (by simp)]
    cases raw with
    | nil => rfl
    | cons c rest =>
      rw [if_neg (by simp)]
      unfold stripQuotes
      rw [pyStripP_wrap_sat (by decide)]
  · intro s a b hh ha hl hb
    unfold SecurePathDialog.init_paths
    rw [if_neg (by simp)]
    unfold stripQuotes
    rw [pyStripP_wrap_clean (by decide) hh (decide_eq_false ha) hl (decide_eq_false hb)]

/-- Witness for the amended C7: one wrapping layer around a clean string
decodes to its colon-split segments, and adding an extra quote layer
around a raw string leaves the decode result unchanged. -/
theorem decode_strip_all_amended_witness :
    SecurePathDialog.init_paths ('"' :: ("a:b".data ++ ['"'])) =
      (pySplitChar ':' "a:b".data).filter (fun p => !p.isEmpty) ∧
    SecurePathDialog.init_paths ('"' :: ("\"a\"".data ++ ['"'])) =
      SecurePathDialog.init_paths "\"a\"".data :=
  ⟨decode_strip_all_amended.2 "a:b".data 'a' 'b' rfl (by decide) rfl (by decide),
   decode_strip_all_amended.1 "\"a\"".data⟩

/-- C2 counterexample: the comment line `# User_Alias x` is classified
passthrough, yet the merge step of save drops it (the untouched-line
filter removes any line containing `_Alias`), so the output is a lone
newline and differs from the input beyond trailing-newline
normalization. -/
theorem roundtrip_passthrough_cex :
    (∀ ln ∈ pySplitlines "# User_Alias x".data,
      classifyLine ln = LineClass.passthrough) ∧
    mergeAfterLoad "# User_Alias x".data = some ['\n'] ∧
    (mergeAfterLoad "# User_Alias x".data).map (dropTrailing (fun c => c = '\n')) ≠
      some (dropTrailing (fun c => c = '\n') "# User_Alias x".data) := by
  refine ⟨by decide, by decide, by decide⟩

/-- C2 amended: for every input text whose line terminators are plain
newlines, in which no line strips to a `Defaults` prefix and no line
contains `_Alias` anywhere (all such lines are passthrough), the
merge step of save reproduces the input text exactly, up to appending
one trailing newline when the text lacks one. -/
theorem roundtrip_passthrough_amended (text : List Char)
    (hb : ∀ c ∈ text, pyIsLineBreak c = true → c = '\n')
    (hl : ∀ ln ∈ pySplitlines text,
      "Defaults".data.isPrefixOf (pyStrip ln) = false ∧
      containsSub "_Alias".data ln = false) :
    mergeAfterLoad text =
      some ((if text.getLast? = some '\n' then text.dropLast else text) ++ ['\n']) := by
  have hpass : ∀ ln ∈ pySplitlines text, classifyLine ln = LineClass.passthrough :=
    fun ln hln => classifyLine_pass_of (hl ln hln).1 (hl ln hln).2
  unfold mergeAfterLoad parse_sudoers
  rw [parseLines_all_pass hpass]
  unfold save_merge
  simp only [populateDefaultsRows, populateAliasRows, List.map_nil, List.mapM_nil]
  have hfilter : (pySplitlines text).filter keepUntouched = pySplitlines text := by
    rw [List.filter_eq_self]
    intro ln hln
    unfold keepUntouched
    rw [(hl ln hln).1, (hl ln hln).2]
    rfl
  rw [hfilter]
  simp only [List.nil_append]
  rw [joinSep_pySplitlines hb]

/-- Witness for the amended C2 on a two-line rule-and-comment file. -/
theorem roundtrip_passthrough_amended_witness :
    mergeAfterLoad "alice ALL\n# note".data = some "alice ALL\n# note\n".data := by
  have h := roundtrip_passthrough_amended "alice ALL\n# note".data (by decide) (by decide)
  rw [h]
  decide

theorem isPrefixOf_false_head {a b : Char} {l1 l2 : List Char} (h : ¬(a = b)) :
    (a :: l1).isPrefixOf (b :: l2) = false := by
  simp [List.isPrefixOf, h]

theorem aliasTail_name {s : List Char} {p : List Char × List Char}
    (h : aliasTail s = some p) :
    p.1 = (s.dropWhile pyIsSpace).takeWhile pyIsWord := by
  unfold aliasTail at h
  cases s with
  | nil => simp at h
  | cons c s2 =>
    dsimp only at h
    by_cases hsp : pyIsSpace c = true
    · rw [if_pos hsp] at h
      by_cases hni : (((c :: s2).dropWhile pyIsSpace).takeWhile pyIsWord).isEmpty = true
      · rw [if_pos hni] at h
        simp at h
      · rw [if_neg hni] at h
        cases hm : (((c :: s2).dropWhile pyIsSpace).dropWhile pyIsWord).dropWhile pyIsSpace with
        | nil =>
          rw [hm] at h
          simp at h
        | cons c2 r3 =>
          rw [hm] at h
          dsimp only at h
          by_cases he : c2 = '='
          · rw [if_pos he] at h
            have h2 := Option.some.inj h
            rw [← h2]
          · rw [if_neg he] at h
            simp at h
    · rw [if_neg hsp] at h
      simp at h

theorem aliasMatch_user (X : List Char) :
    aliasMatch ("User_Alias".data ++ X) =
      (aliasTail X).map (fun p => ("User".data, p.1, p.2)) := by
  unfold aliasMatch
  rw [if_pos (isPrefixOf_eq_true.mpr (List.prefix_append _ _))]
  rw [show (10 : Nat) = "User_Alias".data.length from rfl, List.drop_left]

theorem aliasMatch_runas (X : List Char) :
    aliasMatch ("Runas_Alias".data ++ X) =
      (aliasTail X).map (fun p => ("Runas".data, p.1, p.2)) := by
  unfold aliasMatch
  rw [if_neg (by
    rw [show "Runas_Alias".data ++ X = 'R' :: ("unas_Alias".data ++ X) from rfl]
    simp [isPrefixOf_false_head (show ¬('U' = 'R') by decide)])]
  rw [if_pos (isPrefixOf_eq_true.mpr (List.prefix_append _ _))]
  rw [show (11 : Nat) = "Runas_Alias".data.length from rfl, List.drop_left]

theorem aliasMatch_host (X : List Char) :
    aliasMatch ("Host_Alias".data ++ X) =
      (aliasTail X).map (fun p => ("Host".data, p.1, p.2)) := by
  unfold aliasMatch
  rw [if_neg (by
    rw [show "Host_Alias".data ++ X = 'H' :: ("ost_Alias".data ++ X) from rfl]
    simp [isPrefixOf_false_head (show ¬('U' = 'H') by decide)])]
  rw [if_neg (by
    rw [show "Host_Alias".data ++ X = 'H' :: ("ost_Alias".data ++ X) from rfl]
    simp [isPrefixOf_false_head (show ¬('R' = 'H') by decide)])]
  rw [if_pos (isPrefixOf_eq_true.mpr (List.prefix_append _ _))]
  rw [show (10 : Nat) = "Host_Alias".data.length from rfl, List.drop_left]

theorem aliasMatch_cmnd (X : List Char) :
    aliasMatch ("Cmnd_Alias".data ++ X) =
      (aliasTail X).map (fun p => ("Cmnd".data, p.1, p.2)) := by
  unfold aliasMatch
  rw [if_neg (by
    rw [show "Cmnd_Alias".data ++ X = 'C' :: ("mnd_Alias".data ++ X) from rfl]
    simp [isPrefixOf_false_head (show ¬('U' = 'C') by decide)])]
  rw [if_neg (by
    rw [show "Cmnd_Alias".data ++ X = 'C' :: ("mnd_Alias".data ++ X) from rfl]
    simp [isPrefixOf_false_head (show ¬('R' = 'C') by decide)])]
  rw [if_neg (by
    rw [show "Cmnd_Alias".data ++ X = 'C' :: ("mnd_Alias".data ++ X) from rfl]
    simp [isPrefixOf_false_head (show ¬('H' = 'C') by decide)])]
  rw [if_pos (isPrefixOf_eq_true.mpr (List.prefix_append _ _))]
  rw [show (10 : Nat) = "Cmnd_Alias".data.length from rfl, List.drop_left]

theorem aliasMatch_name {s : List Char} {t : List Char × List Char × List Char}
    (h : aliasMatch s = some t) : t.2.1.all pyIsWord = true := by
  unfold aliasMatch at h
  by_cases h1 : "User_Alias".data.isPrefixOf s = true
  · rw [if_pos h1] at h
    obtain ⟨p, hp, ht⟩ := Option.map_eq_some'.mp h
    have ht2 : t.2.1 = p.1 := by rw [← ht]
    rw [ht2, aliasTail_name hp]
    exact all_takeWhile _ _
  · rw [if_neg h1] at h
    by_cases h2 : "Runas_Alias".data.isPrefixOf s = true
    · rw [if_pos h2] at h
      obtain ⟨p, hp, ht⟩ := Option.map_eq_some'.mp h
      have ht2 : t.2.1 = p.1 := by rw [← ht]
      rw [ht2, aliasTail_name hp]
      exact all_takeWhile _ _
    · rw [if_neg h2] at h
      by_cases h3 : "Host_Alias".data.isPrefixOf s = true
      · rw [if_pos h3] at h
        obtain ⟨p, hp, ht⟩ := Option.map_eq_some'.mp h
        have ht2 : t.2.1 = p.1 := by rw [← ht]
        rw [ht2, aliasTail_name hp]
        exact all_takeWhile _ _
      · rw [if_neg h3] at h
        by_cases h4 : "Cmnd_Alias".data.isPrefixOf s = true
        · rw [if_pos h4] at h
          obtain ⟨p, hp, ht⟩ := Option.map_eq_some'.mp h
          have ht2 : t.2.1 = p.1 := by rw [← ht]
          rw [ht2, aliasTail_name hp]
          exact all_takeWhile _ _
        · rw [if_neg h4] at h
          simp at h

theorem aliasTail_bad_name (nm tail : List Char) (hne : nm ≠ [])
    (hns : ∀ c ∈ nm, pyIsSpace c = false ∧ ¬(c = '='))
    (hbad : ∃ c ∈ nm, pyIsWord c = false) :
    aliasTail (' ' :: (nm ++ tail)) = none := by
  have hd : nm.dropWhile pyIsWord ≠ [] := by
    intro hcon
    obtain ⟨c, hcm, hcw⟩ := hbad
    have h2 := List.dropWhile_eq_nil_iff.mp hcon c hcm
    rw [hcw] at h2
    exact Bool.false_ne_true h2
  obtain ⟨c0, n2, hsplit⟩ : ∃ c0 n2, nm.dropWhile pyIsWord = c0 :: n2 := by
    cases hc : nm.dropWhile pyIsWord with
    | nil => exact absurd hc hd
    | cons x xs => exact ⟨x, xs, rfl⟩
  have hc0w : pyIsWord c0 = false := dropWhile_head_not hsplit
  have hc0mem : c0 ∈ nm := by
    have hmem2 : c0 ∈ nm.dropWhile pyIsWord := by
      rw [hsplit]
      exact List.mem_cons_self c0 n2
    exact (List.dropWhile_sublist pyIsWord).subset hmem2
  have hnm_eq : nm.takeWhile pyIsWord ++ (c0 :: n2) = nm := by
    rw [← hsplit]
    exact List.takeWhile_append_dropWhile pyIsWord nm
  have hn1w : ∀ x ∈ nm.takeWhile pyIsWord, pyIsWord x = true :=
    fun x hx => List.all_eq_true.mp (all_takeWhile pyIsWord nm) x hx
  have hr1 : (' ' :: (nm ++ tail)).dropWhile pyIsSpace = nm ++ tail := by
    rw [List.dropWhile_cons, if_pos (by decide)]
    cases hnmc : nm with
    | nil => exact absurd hnmc hne
    | cons a nmrest =>
      have hna := (hns a (by rw [hnmc]; exact List.mem_cons_self a nmrest)).1
      rw [List.cons_append, List.dropWhile_cons, if_neg (by simp [hna])]
  have hassoc : nm ++ tail = nm.takeWhile pyIsWord ++ (c0 :: (n2 ++ tail)) := by
    rw [← hnm_eq]
    rw [List.append_assoc, List.cons_append]
    rw [hnm_eq]
  have ht : (nm ++ tail).takeWhile pyIsWord = nm.takeWhile pyIsWord := by
    conv_lhs => rw [hassoc]
    exact takeWhile_all_not pyIsWord _ (n2 ++ tail) c0 hn1w hc0w
  have hdw : (nm ++ tail).dropWhile pyIsWord = c0 :: (n2 ++ tail) := by
    conv_lhs => rw [hassoc]
    exact dropWhile_all_not pyIsWord _ (n2 ++ tail) c0 hn1w hc0w
  unfold aliasTail
  dsimp only
  rw [if_pos (by decide), hr1, ht]
  by_cases hn1e : (nm.takeWhile pyIsWord).isEmpty = true
  · rw [if_pos hn1e]
  · rw [if_neg hn1e, hdw]
    rw [List.dropWhile_cons, if_neg (by simp [(hns c0 hc0mem).1])]
    dsimp only
    rw [if_neg (hns c0 hc0mem).2]

theorem dropWhile_no_head {p : Char → Bool} {x : List Char} {a : Char} {l : List Char}
    (hx : x = a :: l) (ha : p a = false) : x.dropWhile p = x := by
  rw [hx, List.dropWhile_cons, if_neg (by simp [ha])]

theorem classify_aliasform_pass (K R : List Char) (c1 : Char)
    (f : List Char × List Char → List Char × List Char × List Char)
    (nm df : List Char)
    (hK : K = c1 :: R)
    (hc1s : pyIsSpace c1 = false)
    (hc1h : ¬(c1 = '#'))
    (hc1d : ¬(c1 = 'D'))
    (hmatch : ∀ X : List Char, aliasMatch (K ++ X) = (aliasTail X).map f)
    (hne : nm ≠ [])
    (hns : ∀ c ∈ nm, pyIsSpace c = false ∧ ¬(c = '='))
    (hbad : ∃ c ∈ nm, pyIsWord c = false) :
    classifyLine (K ++ (' ' :: (nm ++ (" = ".data ++ df)))) = LineClass.passthrough := by
  have hB : dropTrailing pyIsSpace (" = ".data ++ df) ≠ [] :=
    dropTrailing_ne_nil (b := '=')
      (List.mem_append_left df (show '=' ∈ " = ".data by decide)) (by decide)
  have hstrip : pyStrip (K ++ (' ' :: (nm ++ (" = ".data ++ df)))) =
      K ++ (' ' :: (nm ++ dropTrailing pyIsSpace (" = ".data ++ df))) := by
    unfold pyStrip pyStripP
    rw [dropWhile_no_head (by rw [hK, List.cons_append]) hc1s]
    have hgrp : K ++ (' ' :: (nm ++ (" = ".data ++ df))) =
        (K ++ (' ' :: nm)) ++ (" = ".data ++ df) := by
      simp
    rw [hgrp, dropTrailing_append hB]
    simp
  unfold classifyLine
  rw [hstrip]
  have hcons : K ++ (' ' :: (nm ++ dropTrailing pyIsSpace (" = ".data ++ df))) =
      c1 :: (R ++ (' ' :: (nm ++ dropTrailing pyIsSpace (" = ".data ++ df)))) := by
    rw [hK, List.cons_append]
  have hcomment : ("#".data.isPrefixOf
      (K ++ (' ' :: (nm ++ dropTrailing pyIsSpace (" = ".data ++ df)))) ||
      (K ++ (' ' :: (nm ++ dropTrailing pyIsSpace (" = ".data ++ df)))).isEmpty) = false := by
    rw [hcons, show "#".data = ['#'] from rfl,
      isPrefixOf_false_head (fun hh => hc1h hh.symm)]
    rfl
  rw [if_neg (by rw [hcomment]; exact Bool.false_ne_true)]
  have hpf : "Defaults".data.isPrefixOf
      (K ++ (' ' :: (nm ++ dropTrailing pyIsSpace (" = ".data ++ df)))) = false := by
    rw [hcons, show "Defaults".data = 'D' :: "efaults".data from rfl]
    exact isPrefixOf_false_head (fun hh => hc1d hh.symm)
  have hdm : defaultMatch
      (K ++ (' ' :: (nm ++ dropTrailing pyIsSpace (" = ".data ++ df)))) = none := by
    unfold defaultMatch
    rw [if_neg (by rw [hpf]; exact Bool.false_ne_true)]
  have ham : aliasMatch
      (K ++ (' ' :: (nm ++ dropTrailing pyIsSpace (" = ".data ++ df)))) = none := by
    rw [hmatch (' ' :: (nm ++ dropTrailing pyIsSpace (" = ".data ++ df)))]
    rw [aliasTail_bad_name nm _ hne hns hbad]
    rfl
  simp only [hdm, ham]

/-- C10 counterexample: the regex class `\w` of `ALIAS_RE` is
Unicode-aware, so the line `User_Alias É = x` is classified as an
alias declaration whose captured name is `É` — a name that does not
consist entirely of characters of the ASCII class `[A-Za-z0-9_]`
named by the claim, refuting both the only-if part and the
passthrough part at this line. -/
theorem alias_name_word_chars_cex :
    classifyLine "User_Alias É = x".data =
      LineClass.aliasLine "User".data "É".data "x".data ∧
    "É".data.all asciiWord = false := by
  refine ⟨by decide, by decide⟩

/-- C10 amended: a line is classified as an alias declaration only if
its captured name consists entirely of Python word characters (the
Unicode-aware class `\w`, wider than `[A-Za-z0-9_]`); and every line
of the shape `<Kind>_Alias <Name> = <Definition>` whose name (a
non-empty latin-1 token without whitespace or equals signs) contains
a character outside `\w` is classified passthrough instead.  The
latin-1 bound on the name keeps the statement inside the range where
the embedding models `\w` exactly. -/
theorem alias_name_word_chars_amended :
    (∀ line k nm df, classifyLine line = LineClass.aliasLine k nm df →
      nm.all pyIsWord = true) ∧
    (∀ k nm df, k ∈ ["User".data, "Runas".data, "Host".data, "Cmnd".data] →
      nm ≠ [] → (∀ c ∈ nm, c.toNat ≤ 255 ∧ pyIsSpace c = false ∧ ¬(c = '=')) →
      (∃ c ∈ nm, pyIsWord c = false) →
      classifyLine (k ++ "_Alias ".data ++ nm ++ " = ".data ++ df) =
        LineClass.passthrough) := by
  constructor
  · intro line k nm df h
    unfold classifyLine at h
    by_cases h0 : ("#".data.isPrefixOf (pyStrip line) || (pyStrip line).isEmpty) = true
    · rw [if_pos h0] at h
      exact absurd h (by simp)
    · rw [if_neg h0] at h
      cases hdm : defaultMatch (pyStrip line) with
      | some b =>
        rw [hdm] at h
        exact absurd h (by simp)
      | none =>
        rw [hdm] at h
        dsimp only at h
        cases ham : aliasMatch (pyStrip line) with
        | none =>
          rw [ham] at h
          exact absurd h (by simp)
        | some t =>
          rw [ham] at h
          dsimp only at h
          injection h with e1 e2 e3
          rw [← e2]
          exact aliasMatch_name ham
  · intro k nm df hk hne hns3 hbad
    have hns : ∀ c ∈ nm, pyIsSpace c = false ∧ ¬(c = '=') :=
      fun c hc => ⟨(hns3 c hc).2.1, (hns3 c hc).2.2⟩
    have hline : ∀ K : List Char, k ++ "_Alias ".data = K ++ [' '] →
        k ++ "_Alias ".data ++ nm ++ " = ".data ++ df =
          K ++ (' ' :: (nm ++ (" = ".data ++ df))) := by
      intro K hKk
      rw [show (' ' :: (nm ++ (" = ".data ++ df))) = [' '] ++ (nm ++ (" = ".data ++ df))
        from rfl]
      rw [← List.append_assoc, ← hKk]
      simp [List.append_assoc]
    fin_cases hk
    · rw [hline "User_Alias".data (by decide)]
      exact classify_aliasform_pass "User_Alias".data "ser_Alias".data 'U' _ nm df rfl
        (by decide) (by decide) (by decide) aliasMatch_user hne hns hbad
    · rw [hline "Runas_Alias".data (by decide)]
      exact classify_aliasform_pass "Runas_Alias".data "unas_Alias".data 'R' _ nm df rfl
        (by decide) (by decide) (by decide) aliasMatch_runas hne hns hbad
    · rw [hline "Host_Alias".data (by decide)]
      exact classify_aliasform_pass "Host_Alias".data "ost_Alias".data 'H' _ nm df rfl
        (by decide) (by decide) (by decide) aliasMatch_host hne hns hbad
    · rw [hline "Cmnd_Alias".data (by decide)]
      exact classify_aliasform_pass "Cmnd_Alias".data "mnd_Alias".data 'C' _ nm df rfl
        (by decide) (by decide) (by decide) aliasMatch_cmnd hne hns hbad

/-- Witness for the amended C10 on the line `User_Alias WEB-ADMINS = x`:
the hyphenated name makes the line passthrough. -/
theorem alias_name_word_chars_amended_witness :
    classifyLine "User_Alias WEB-ADMINS = x".data = LineClass.passthrough := by
  rw [show "User_Alias WEB-ADMINS = x".data =
    "User".data ++ "_Alias ".data ++ "WEB-ADMINS".data ++ " = ".data ++ "x".data
    from by decide]
  exact alias_name_word_chars_amended.2 "User".data "WEB-ADMINS".data "x".data
    (by decide) (by decide) (by decide) ⟨'-', by decide, by decide⟩
